import Mathlib

/-!
Verification of the tournament-finder core (filename parser and
filter/facet engine) of the Upcoming-Tournaments repository.

Strings are modelled as lists of characters (`Str`).  JavaScript `Date`
objects produced by `new Date(string)` are modelled by `JSDate`: the
constructor never throws; an unrecognizable string yields the Invalid
Date sentinel (`JSDate.invalid`), whose numeric value is NaN, so every
ordered comparison against it is false and the array-sort comparator
result NaN is treated as 0 by the runtime.  For valid dates we keep a
time value that is strictly monotone in (year, month, day); the exact
epoch offset is irrelevant to every property proved here.  `Array.sort`
is modelled as a stable insertion sort driven by the boolean
relation "comparator(a, b) <= 0", which agrees with the engine's stable
sort whenever the comparator is consistent.
-/

/-- Strings are modelled as lists of characters. -/
abbrev Str := List Char

/-- JavaScript `String.prototype.toLowerCase`, restricted to ASCII case
folding, which covers every string appearing in the repository. -/
def lowerStr (s : Str) : Str := s.map Char.toLower

/-- The whitespace characters recognised by JavaScript `trim`
(ASCII whitespace plus NBSP and the BOM). -/
def isJsWhitespace (c : Char) : Bool :=
  c = ' ' || c = '\t' || c = '\n' || c = '\r' ||
  c.toNat = 11 || c.toNat = 12 || c.toNat = 0xa0 || c.toNat = 0xfeff

/-- JavaScript `String.prototype.trim`. -/
def jsTrim (s : Str) : Str :=
  ((s.dropWhile isJsWhitespace).reverse.dropWhile isJsWhitespace).reverse

/-- JavaScript `String.prototype.split` with a single-character
separator: `"".split(c) = [""]`, separators at the ends produce empty
pieces. -/
def splitOnChar (c : Char) : Str → List Str
  | [] => [[]]
  | x :: xs =>
    if x = c then [] :: splitOnChar c xs
    else
      match splitOnChar c xs with
      | [] => [[x]]
      | s :: rest => (x :: s) :: rest

/-- JavaScript `Array.prototype.join(' ')`. -/
def joinSpaces (l : List Str) : Str := List.intercalate [' '] l

/-- `leadsWith hay needle` holds when `hay` starts with `needle`. -/
def leadsWith : Str → Str → Bool
  | _, [] => true
  | [], _ :: _ => false
  | h :: hs, n :: ns => h = n && leadsWith hs ns

/-- JavaScript `String.prototype.includes`. -/
def strContains : Str → Str → Bool
  | [], needle => needle.isEmpty
  | c :: rest, needle => leadsWith (c :: rest) needle || strContains rest needle

/-- Decimal digits to a natural number (JavaScript `parseInt` on a
string of digits). -/
def digitsToNat (s : Str) : Nat :=
  s.foldl (fun n c => n * 10 + (c.toNat - '0'.toNat)) 0

/-- First maximal run of ASCII letters in a string: the regular
expression match `/[a-zA-Z]+/`. -/
def firstAlphaRun : Str → Option Str
  | [] => none
  | c :: cs =>
    if c.isAlpha then some (c :: cs.takeWhile Char.isAlpha)
    else firstAlphaRun cs

/-- First four consecutive digits in a string: the regular expression
match `/\d{4}/`. -/
def firstFourDigits : Str → Option Str
  | [] => none
  | c :: cs =>
    let four := c :: cs.take 3
    if four.length = 4 && four.all Char.isDigit then some four
    else firstFourDigits cs

/-- A JavaScript `Date` value: a finite time value, or the Invalid Date
sentinel whose time value is NaN. -/
inductive JSDate where
  | invalid : JSDate
  | valid : Int → JSDate
deriving DecidableEq, Repr

/-- Model of the JavaScript time value for (year, month 1..12, day
1..31): strictly monotone in the lexicographic order of the
components, which is all any claim depends on. -/
def dateCode (y m d : Nat) : Int := ((y * 12 + (m - 1)) * 31 + (d - 1) : Nat)

/-- The fixed month table `MONTH_ORDER` of the source. -/
def MONTH_ORDER : List Str :=
  ["January".toList, "February".toList, "March".toList, "April".toList,
   "May".toList, "June".toList, "July".toList, "August".toList,
   "September".toList, "October".toList, "November".toList, "December".toList]

/-- Month-name recognition of the JavaScript date parser: a
case-insensitive prefix of at least three characters of an English
month name (model of the engine's `new Date("Month D, Y")` parsing). -/
def monthNumber (s : Str) : Option Nat :=
  let ls := lowerStr s
  if ls.length < 3 then none
  else
    match MONTH_ORDER.findIdx? (fun m => leadsWith (lowerStr m) ls) with
    | some i => some (i + 1)
    | none => none

/-- Model of `new Date("MonthName day, year")`: the constructor never
throws; an unrecognised month name or a day outside 1..31 yields the
Invalid Date sentinel. -/
def jsNewDate (monthName : Str) (day : Nat) (year : Nat) : JSDate :=
  match monthNumber monthName with
  | none => JSDate.invalid
  | some m => if 1 ≤ day ∧ day ≤ 31 then JSDate.valid (dateCode year m day) else JSDate.invalid

/-- The record produced by `parseFilename` (src/src/App.jsx lines
8-57). -/
structure TournamentRecord where
  dateRange : Str
  monthYear : Str
  type : Str
  location : Str
  country : Str
  startDate : Option JSDate
deriving DecidableEq, Repr

/-- A fetched file `{id, name, webViewLink}`. -/
structure RawFile where
  id : Str
  name : Str
  webViewLink : Str
deriving DecidableEq, Repr

/-- The literal `"Unknown"`. -/
def unknownStr : Str := "Unknown".toList

/-- The sentinel `"All"`. -/
def allStr : Str := "All".toList

/-- `name.replace(/\.pdf$/i, '')`. -/
def stripPdfExt (s : Str) : Str :=
  if (s.reverse.take 4).map Char.toLower = ['f', 'd', 'p', '.'] then
    (s.reverse.drop 4).reverse
  else s

/-- `noExt.split(' ').filter(p => p.trim() !== '')`. -/
def partsOf (name : Str) : List Str :=
  (splitOnChar ' ' (stripPdfExt name)).filter (fun p => ¬ (jsTrim p).isEmpty)

/-- The combined "location, country" tail: tokens 3.. joined by single
spaces, empty when fewer than four tokens exist. -/
def locationCountryOf (name : Str) : Str :=
  if (partsOf name).length > 3 then joinSpaces ((partsOf name).drop 3) else []

/-- `locationCountry.split(',').map(s => s.trim())`. -/
def commaSegsOf (name : Str) : List Str :=
  (splitOnChar ',' (locationCountryOf name)).map jsTrim

/-- The optional `startDate` of `parseFilename` (lines 32-47): leading
digit run of `dateRange`, first letter run and first 4-digit run of
`monthYear`; all present gives `new Date` of the assembled string (which
may be the Invalid Date), anything missing gives `null`. -/
def computeStartDate (dateRange monthYear : Str) : Option JSDate :=
  let dayDigits := dateRange.takeWhile Char.isDigit
  if dayDigits.isEmpty || monthYear.isEmpty then none
  else
    match firstAlphaRun monthYear, firstFourDigits monthYear with
    | some mn, some yr => some (jsNewDate mn (digitsToNat dayDigits) (digitsToNat yr))
    | _, _ => none

/-- `parseFilename` of src/src/App.jsx lines 8-57. -/
def parseFilename (name : Str) : TournamentRecord :=
  let parts := partsOf name
  let dateRange := parts.getD 0 []
  let monthYear := parts.getD 1 []
  let ty := parts.getD 2 []
  let segs := commaSegsOf name
  let location := segs.getD 0 []
  let countryRaw := segs.getD 1 []
  { dateRange := dateRange
    monthYear := monthYear
    type := ty
    location := location
    country := if countryRaw.isEmpty then unknownStr else countryRaw
    startDate := computeStartDate dateRange monthYear }

/-- `parsed.startDate && parsed.startDate >= now` coerced to a boolean
(lines 138): `null` is falsy, every `Date` object (Invalid Date
included) is truthy, and an ordered comparison against an Invalid Date
is false because its time value is NaN. -/
def isUpcomingB (p : TournamentRecord) (now : Int) : Bool :=
  match p.startDate with
  | none => false
  | some JSDate.invalid => false
  | some (JSDate.valid t) => decide (now ≤ t)

/-- `parsed.startDate && parsed.startDate < now` coerced to a boolean
(line 139). -/
def isCompletedB (p : TournamentRecord) (now : Int) : Bool :=
  match p.startDate with
  | none => false
  | some JSDate.invalid => false
  | some (JSDate.valid t) => decide (t < now)

/-- "Upcoming" as a string. -/
def upcomingStr : Str := "Upcoming".toList

/-- "Completed" as a string. -/
def completedStr : Str := "Completed".toList

/-- `matchesSearch` (lines 133, 172). -/
def matchesSearchB (search : Str) (f : RawFile) : Bool :=
  strContains (lowerStr f.name) (lowerStr search)

/-- `matchesMonth` (line 134). -/
def matchesMonthB (monthFilter : Str) (p : TournamentRecord) : Bool :=
  decide (monthFilter = allStr) || decide (p.monthYear = monthFilter)

/-- `matchesCountry` (line 135). -/
def matchesCountryB (countryFilter : Str) (p : TournamentRecord) : Bool :=
  decide (countryFilter = allStr) || decide (p.country = countryFilter)

/-- `matchesType` (line 136). -/
def matchesTypeB (typeFilter : Str) (p : TournamentRecord) : Bool :=
  decide (typeFilter = allStr) || decide (p.type = typeFilter)

/-- `matchesStatus` (lines 141-146 and 181-186): `true` unless the
status filter is `"Upcoming"` or `"Completed"`. -/
def matchesStatusB (statusFilter : Str) (p : TournamentRecord) (now : Int) : Bool :=
  if statusFilter = upcomingStr then isUpcomingB p now
  else if statusFilter = completedStr then isCompletedB p now
  else true

/-- The filtering predicate of `filteredFiles` (lines 129-149). -/
def filterPred (search monthFilter countryFilter typeFilter statusFilter : Str)
    (now : Int) (f : RawFile) : Bool :=
  let parsed := parseFilename f.name
  matchesSearchB search f && matchesMonthB monthFilter parsed &&
    matchesCountryB countryFilter parsed && matchesTypeB typeFilter parsed &&
    matchesStatusB statusFilter parsed now

/-- The sort comparator of lines 151-160 as the relation
"comparator(a, b) <= 0".  Both `startDate`s `null` gives 0; a `null` on
the left gives 1, on the right -1; otherwise the result is
`getTime(a) - getTime(b)`, and a NaN time value (Invalid Date) makes
the comparator NaN, which the sort treats as 0. -/
def sortCompareLe (a b : RawFile) : Bool :=
  match (parseFilename a.name).startDate, (parseFilename b.name).startDate with
  | none, none => true
  | none, some _ => false
  | some _, none => true
  | some da, some db =>
    match da, db with
    | JSDate.valid ta, JSDate.valid tb => decide (ta ≤ tb)
    | _, _ => true

/-- Stable insertion step of the sort model. -/
def jsInsert (le : α → α → Bool) (x : α) : List α → List α
  | [] => [x]
  | y :: ys => if le x y then x :: y :: ys else y :: jsInsert le x ys

/-- Model of `Array.prototype.sort`: a stable sort, which any stable
algorithm realises identically whenever the comparator is consistent. -/
def jsSortB (le : α → α → Bool) : List α → List α
  | [] => []
  | x :: xs => jsInsert le x (jsSortB le xs)

/-- `filteredFiles` (lines 126-163): filter, then sort by the
start-date comparator. -/
def filteredFiles (files : List RawFile)
    (search monthFilter countryFilter typeFilter statusFilter : Str)
    (now : Int) : List RawFile :=
  jsSortB sortCompareLe
    (files.filter (filterPred search monthFilter countryFilter typeFilter statusFilter now))

/-- The facet attribute argument of `getFilteredCounts`. -/
inductive FacetAttr where
  | monthYear : FacetAttr
  | country : FacetAttr
  | type : FacetAttr
deriving DecidableEq, Repr

/-- `parsed[attribute]`. -/
def facetValue : FacetAttr → TournamentRecord → Str
  | FacetAttr.monthYear, p => p.monthYear
  | FacetAttr.country, p => p.country
  | FacetAttr.type, p => p.type

/-- `matchesOtherFilters` (lines 174-177): each categorical facet
constraint is waived when it is the attribute being tallied. -/
def matchesOtherFilters (attr : FacetAttr)
    (currentMonth currentCountry currentType : Str) (p : TournamentRecord) : Bool :=
  (decide (attr = FacetAttr.monthYear) || decide (currentMonth = allStr) ||
      decide (p.monthYear = currentMonth)) &&
  (decide (attr = FacetAttr.country) || decide (currentCountry = allStr) ||
      decide (p.country = currentCountry)) &&
  (decide (attr = FacetAttr.type) || decide (currentType = allStr) ||
      decide (p.type = currentType))

/-- `counts.get(k) || 0` on the insertion-ordered map model. -/
def mapGet (m : List (Str × Nat)) (k : Str) : Nat :=
  match m with
  | [] => 0
  | (k', v) :: rest => if k' = k then v else mapGet rest k

/-- `counts.set(k, v)`: update in place when the key exists, append
otherwise (JavaScript `Map` preserves insertion order). -/
def mapSet (m : List (Str × Nat)) (k : Str) (v : Nat) : List (Str × Nat) :=
  match m with
  | [] => [(k, v)]
  | (k', v') :: rest => if k' = k then (k, v) :: rest else (k', v') :: mapSet rest k v

/-- Sum of the values of the map model. -/
def mapSum (m : List (Str × Nat)) : Nat := (m.map Prod.snd).sum

/-- One iteration of the `files.forEach` loop of `getFilteredCounts`
(lines 169-194): tally `parsed[attribute]` when the record matches the
search, the other facets and the status, and the value is truthy
(non-empty). -/
def countsStep (attr : FacetAttr)
    (currentMonth currentCountry currentType currentSearch currentStatus : Str)
    (now : Int) (counts : List (Str × Nat)) (file : RawFile) : List (Str × Nat) :=
  let parsed := parseFilename file.name
  let ms := matchesSearchB currentSearch file
  let mo := matchesOtherFilters attr currentMonth currentCountry currentType parsed
  let mst := matchesStatusB currentStatus parsed now
  if ms && mo && mst then
    let value := facetValue attr parsed
    if value.isEmpty then counts else mapSet counts value (mapGet counts value + 1)
  else counts

/-- `getFilteredCounts` (lines 166-196). -/
def getFilteredCounts (files : List RawFile) (attr : FacetAttr)
    (currentMonth currentCountry currentType currentSearch currentStatus : Str)
    (now : Int) : List (Str × Nat) :=
  files.foldl (countsStep attr currentMonth currentCountry currentType currentSearch
    currentStatus now) []

/-- `getMonthName` (lines 203-207): the substring before the first
digit, or the whole string when no digit occurs. -/
def getMonthName (s : Str) : Str :=
  if s.isEmpty then []
  else
    match s.findIdx? Char.isDigit with
    | some i => s.take i
    | none => s

/-- `getYear` (lines 209-213): the first 4-digit run parsed as a
number, 0 when absent. -/
def getYear (s : Str) : Nat :=
  if s.isEmpty then 0
  else
    match firstFourDigits s with
    | some d => digitsToNat d
    | none => 0

/-- `MONTH_ORDER.indexOf`, -1 when absent. -/
def monthIdx (name : Str) : Int :=
  match MONTH_ORDER.findIdx? (fun m => m = name) with
  | some i => (i : Int)
  | none => -1

/-- The month comparator of lines 220-235: year ascending, then
position in the fixed month table. -/
def monthCmp (a b : Str) : Int :=
  if getYear a ≠ getYear b then (getYear a : Int) - (getYear b : Int)
  else monthIdx (getMonthName a) - monthIdx (getMonthName b)

/-- The month comparator as the relation "comparator(a, b) <= 0". -/
def monthLe (a b : Str) : Bool := decide (monthCmp a b ≤ 0)

/-- A dropdown option `{value, label}`. -/
structure FacetOption where
  value : Str
  label : Str
deriving DecidableEq, Repr

/-- The count suffix `` ` (${n})` `` of option labels. -/
def countSuffix (n : Nat) : Str := ' ' :: '(' :: Nat.toDigits 10 n ++ [')']

/-- `monthOptions` (lines 216-260): tally months ignoring the month
filter itself, sort by year then month, disambiguate labels whose month
name occurs under several years, and prepend the `All` sentinel. -/
def monthOptions (files : List RawFile)
    (search countryFilter typeFilter statusFilter : Str) (now : Int) : List FacetOption :=
  let counts := getFilteredCounts files FacetAttr.monthYear allStr countryFilter typeFilter
    search statusFilter now
  let uniqueMonths := counts.map Prod.fst
  let sortedMonths := jsSortB monthLe uniqueMonths
  let occ := uniqueMonths.foldl
    (fun m my => mapSet m (getMonthName my) (mapGet m (getMonthName my) + 1)) []
  (allStr :: sortedMonths).map (fun m =>
    if m = allStr then { value := allStr, label := allStr }
    else
      let monthName := getMonthName m
      let year := getYear m
      let displayLabel :=
        if mapGet occ monthName > 1 then monthName ++ ' ' :: Nat.toDigits 10 year
        else monthName
      { value := m, label := displayLabel ++ countSuffix (mapGet counts m) })

/-- Lexicographic comparison of strings by character code: the default
`Array.prototype.sort()` comparator restricted to the repository's
character set. -/
def charListLe : Str → Str → Bool
  | [], _ => true
  | _ :: _, [] => false
  | a :: as, b :: bs =>
    if a.toNat < b.toNat then true
    else if b.toNat < a.toNat then false
    else charListLe as bs

/-- `countryOptions` (lines 263-271). -/
def countryOptions (files : List RawFile)
    (search monthFilter typeFilter statusFilter : Str) (now : Int) : List FacetOption :=
  let counts := getFilteredCounts files FacetAttr.country monthFilter allStr typeFilter
    search statusFilter now
  let sortedCountries := jsSortB charListLe (counts.map Prod.fst)
  (allStr :: sortedCountries).map (fun c =>
    { value := c
      label := if c = allStr then allStr else c ++ countSuffix (mapGet counts c) })

/-- `typeOptions` (lines 274-282). -/
def typeOptions (files : List RawFile)
    (search monthFilter countryFilter statusFilter : Str) (now : Int) : List FacetOption :=
  let counts := getFilteredCounts files FacetAttr.type monthFilter countryFilter allStr
    search statusFilter now
  let sortedTypes := jsSortB charListLe (counts.map Prod.fst)
  (allStr :: sortedTypes).map (fun t =>
    { value := t
      label := if t = allStr then allStr else t ++ countSuffix (mapGet counts t) })

/-- A file whose parsed `startDate` is not the Invalid Date sentinel
(it is `null` or a genuine calendar date). -/
def fileOk (f : RawFile) : Prop :=
  (parseFilename f.name).startDate ≠ some JSDate.invalid

instance (f : RawFile) : Decidable (fileOk f) := by
  unfold fileOk; infer_instance

/-- A file whose parsed `startDate` is `null`. -/
def nullStartB (f : RawFile) : Bool := (parseFilename f.name).startDate.isNone

/-- The condition under which `getFilteredCounts` tallies a file: it
matches the search, every facet other than the tallied one, and the
status, and its value for the tallied attribute is non-empty. -/
def countsKeep (attr : FacetAttr)
    (currentMonth currentCountry currentType currentSearch currentStatus : Str)
    (now : Int) (f : RawFile) : Bool :=
  (matchesSearchB currentSearch f &&
      matchesOtherFilters attr currentMonth currentCountry currentType (parseFilename f.name) &&
      matchesStatusB currentStatus (parseFilename f.name) now) &&
    !(facetValue attr (parseFilename f.name)).isEmpty

/-! ## Library of facts about the embedded operations -/

theorem mapGet_cons_ne (k' : Str) (v : Nat) (rest : List (Str × Nat)) (k : Str)
    (h : k' ≠ k) : mapGet ((k', v) :: rest) k = mapGet rest k := by
  simp [mapGet, h]

theorem mapSum_incr (m : List (Str × Nat)) (k : Str) :
    mapSum (mapSet m k (mapGet m k + 1)) = mapSum m + 1 := by
  induction m with
  | nil => rfl
  | cons hd tl ih =>
    obtain ⟨k', v⟩ := hd
    by_cases h : k' = k
    · simp [mapGet, mapSet, h, mapSum]
      omega
    · simp [mapGet, mapSet, h, mapSum] at ih ⊢
      omega

theorem countsStep_sum (attr : FacetAttr) (cm cc ct cs cst : Str) (now : Int)
    (acc : List (Str × Nat)) (f : RawFile) :
    mapSum (countsStep attr cm cc ct cs cst now acc f)
      = mapSum acc + (if countsKeep attr cm cc ct cs cst now f = true then 1 else 0) := by
  simp only [countsStep, countsKeep]
  by_cases h1 : (matchesSearchB cs f &&
      matchesOtherFilters attr cm cc ct (parseFilename f.name) &&
      matchesStatusB cst (parseFilename f.name) now) = true
  · by_cases h2 : (facetValue attr (parseFilename f.name)).isEmpty = true
    · simp [h1, h2]
    · simp only [h1, if_true, eq_self_iff_true]
      simp only [Bool.not_eq_true] at h2
      simp [h2, mapSum_incr]
  · simp only [Bool.not_eq_true] at h1
    simp [h1]

theorem getFilteredCounts_sum_aux (attr : FacetAttr) (cm cc ct cs cst : Str) (now : Int) :
    ∀ (files : List RawFile) (acc : List (Str × Nat)),
      mapSum (List.foldl (countsStep attr cm cc ct cs cst now) acc files)
        = mapSum acc + (files.filter (countsKeep attr cm cc ct cs cst now)).length := by
  intro files
  induction files with
  | nil => intro acc; simp
  | cons f fs ih =>
    intro acc
    simp only [List.foldl_cons, List.filter_cons]
    rw [ih, countsStep_sum]
    by_cases h : countsKeep attr cm cc ct cs cst now f = true
    · simp [h]; omega
    · simp [h]

theorem jsInsert_perm (le : α → α → Bool) (x : α) (s : List α) :
    (jsInsert le x s).Perm (x :: s) := by
  induction s with
  | nil => exact List.Perm.refl _
  | cons y ys ih =>
    simp only [jsInsert]
    split
    · exact List.Perm.refl _
    · exact (ih.cons y).trans (List.Perm.swap x y ys)

theorem jsSortB_perm (le : α → α → Bool) (l : List α) : (jsSortB le l).Perm l := by
  induction l with
  | nil => exact List.Perm.refl _
  | cons x xs ih => exact (jsInsert_perm le x (jsSortB le xs)).trans (ih.cons x)

theorem mem_jsSortB (le : α → α → Bool) (l : List α) (a : α) :
    a ∈ jsSortB le l ↔ a ∈ l :=
  (jsSortB_perm le l).mem_iff

theorem jsInsert_eq_cons (le : α → α → Bool) (x : α) (s : List α)
    (h : ∀ z ∈ s, le x z = true) : jsInsert le x s = x :: s := by
  cases s with
  | nil => rfl
  | cons y ys => simp [jsInsert, h y (by simp)]

theorem jsInsert_pairwise (le : α → α → Bool) (P : α → Prop)
    (htrans : ∀ a b c, P a → P b → P c → le a b = true → le b c = true → le a c = true)
    (htot : ∀ a b, P a → P b → le a b = true ∨ le b a = true)
    (x : α) (s : List α) (hx : P x) (hs : ∀ y ∈ s, P y)
    (hsort : List.Pairwise (fun a b => le a b = true) s) :
    List.Pairwise (fun a b => le a b = true) (jsInsert le x s) := by
  induction s with
  | nil => simp [jsInsert]
  | cons y ys ih =>
    rw [List.pairwise_cons] at hsort
    simp only [jsInsert]
    split
    · next hxy =>
      rw [List.pairwise_cons]
      refine ⟨?_, List.pairwise_cons.mpr hsort⟩
      intro a ha
      rcases List.mem_cons.mp ha with rfl | ha'
      · exact hxy
      · exact htrans x y a hx (hs y (by simp)) (hs a (by simp [ha'])) hxy (hsort.1 a ha')
    · next hxy =>
      have hyx : le y x = true := by
        rcases htot x y hx (hs y (by simp)) with h | h
        · exact absurd h hxy
        · exact h
      rw [List.pairwise_cons]
      constructor
      · intro a ha
        rcases List.mem_cons.mp ((jsInsert_perm le x ys).mem_iff.mp ha) with rfl | ha'
        · exact hyx
        · exact hsort.1 a ha'
      · exact ih (fun z hz => hs z (by simp [hz])) hsort.2

theorem jsSortB_pairwise (le : α → α → Bool) (P : α → Prop)
    (htrans : ∀ a b c, P a → P b → P c → le a b = true → le b c = true → le a c = true)
    (htot : ∀ a b, P a → P b → le a b = true ∨ le b a = true)
    (l : List α) (hl : ∀ x ∈ l, P x) :
    List.Pairwise (fun a b => le a b = true) (jsSortB le l) := by
  induction l with
  | nil => simp [jsSortB]
  | cons x xs ih =>
    simp only [jsSortB]
    exact jsInsert_pairwise le P htrans htot x (jsSortB le xs) (hl x (by simp))
      (fun y hy => hl y (by simp [(mem_jsSortB le xs y).mp hy]))
      (ih (fun y hy => hl y (by simp [hy])))

theorem jsInsert_filter (le : α → α → Bool) (P : α → Prop)
    (htrans : ∀ a b c, P a → P b → P c → le a b = true → le b c = true → le a c = true)
    (q : α → Bool) (x : α) (s : List α) (hx : P x) (hs : ∀ y ∈ s, P y)
    (hsort : List.Pairwise (fun a b => le a b = true) s) :
    List.filter q (jsInsert le x s)
      = if q x then jsInsert le x (List.filter q s) else List.filter q s := by
  induction s with
  | nil => simp [jsInsert, List.filter_cons]
  | cons y ys ih =>
    rw [List.pairwise_cons] at hsort
    simp only [jsInsert]
    split
    · next hxy =>
      by_cases hqx : q x = true
      · by_cases hqy : q y = true
        · simp [List.filter_cons, hqx, hqy, jsInsert, hxy]
        · have hins : jsInsert le x (List.filter q ys) = x :: List.filter q ys := by
            apply jsInsert_eq_cons
            intro z hz
            rcases List.mem_filter.mp hz with ⟨hzys, _⟩
            exact htrans x y z hx (hs y (by simp)) (hs z (by simp [hzys])) hxy (hsort.1 z hzys)
          simp [List.filter_cons, hqx, hqy, hins]
      · simp only [Bool.not_eq_true] at hqx
        simp [List.filter_cons, hqx]
    · next hxy =>
      have ihys := ih (fun z hz => hs z (by simp [hz])) hsort.2
      by_cases hqy : q y = true
      · simp only [List.filter_cons, hqy, if_true]
        rw [ihys]
        by_cases hqx : q x = true
        · simp [hqx, jsInsert, hxy]
        · simp only [Bool.not_eq_true] at hqx
          simp [hqx]
      · simp only [Bool.not_eq_true] at hqy
        simp only [List.filter_cons, hqy]
        rw [ihys]
        simp

theorem jsSortB_filter (le : α → α → Bool) (P : α → Prop)
    (htrans : ∀ a b c, P a → P b → P c → le a b = true → le b c = true → le a c = true)
    (htot : ∀ a b, P a → P b → le a b = true ∨ le b a = true)
    (q : α → Bool) (l : List α) (hl : ∀ x ∈ l, P x) :
    jsSortB le (List.filter q l) = List.filter q (jsSortB le l) := by
  induction l with
  | nil => rfl
  | cons x xs ih =>
    have hxs : ∀ y ∈ xs, P y := fun y hy => hl y (by simp [hy])
    have hmem : ∀ y ∈ jsSortB le xs, P y := fun y hy => hxs y ((mem_jsSortB le xs y).mp hy)
    have hsorted := jsSortB_pairwise le P htrans htot xs hxs
    rw [List.filter_cons]
    by_cases hqx : q x = true
    · simp only [hqx, if_true]
      simp only [jsSortB]
      rw [ih hxs]
      rw [jsInsert_filter le P htrans q x (jsSortB le xs) (hl x (by simp)) hmem hsorted]
      simp [hqx]
    · simp only [Bool.not_eq_true] at hqx
      simp only [hqx, Bool.false_eq_true, if_false]
      rw [ih hxs]
      simp only [jsSortB]
      rw [jsInsert_filter le P htrans q x (jsSortB le xs) (hl x (by simp)) hmem hsorted]
      simp [hqx]

theorem jsSortB_eq_self (le : α → α → Bool) (l : List α)
    (h : ∀ a ∈ l, ∀ b ∈ l, le a b = true) : jsSortB le l = l := by
  induction l with
  | nil => rfl
  | cons x xs ih =>
    simp only [jsSortB]
    rw [ih (fun a ha b hb => h a (by simp [ha]) b (by simp [hb]))]
    exact jsInsert_eq_cons le x xs (fun z hz => h x (by simp) z (by simp [hz]))

theorem sortCompareLe_trans (a b c : RawFile) (ha : fileOk a) (hb : fileOk b) (hc : fileOk c)
    (h1 : sortCompareLe a b = true) (h2 : sortCompareLe b c = true) :
    sortCompareLe a c = true := by
  unfold fileOk at ha hb hc
  unfold sortCompareLe at h1 h2 ⊢
  rcases hda : (parseFilename a.name).startDate with _ | (_ | ta) <;>
    rcases hdb : (parseFilename b.name).startDate with _ | (_ | tb) <;>
      rcases hdc : (parseFilename c.name).startDate with _ | (_ | tc) <;>
        simp_all <;> omega

theorem sortCompareLe_total (a b : RawFile) (ha : fileOk a) (hb : fileOk b) :
    sortCompareLe a b = true ∨ sortCompareLe b a = true := by
  unfold fileOk at ha hb
  unfold sortCompareLe
  rcases hda : (parseFilename a.name).startDate with _ | (_ | ta) <;>
    rcases hdb : (parseFilename b.name).startDate with _ | (_ | tb) <;>
      simp_all <;> omega

theorem sortCompareLe_of_null (a b : RawFile)
    (hna : nullStartB a = true) (hnb : nullStartB b = true) : sortCompareLe a b = true := by
  unfold nullStartB at hna hnb
  rw [Option.isNone_iff_eq_none] at hna hnb
  unfold sortCompareLe
  rw [hna, hnb]

theorem splitOnChar_ne_nil (c : Char) (s : Str) : splitOnChar c s ≠ [] := by
  induction s with
  | nil => simp [splitOnChar]
  | cons x xs ih =>
    simp only [splitOnChar]
    split
    · simp
    · cases h : splitOnChar c xs with
      | nil => simp
      | cons a b => simp

theorem splitOnChar_head (c : Char) (s : Str) :
    (splitOnChar c s).getD 0 [] = s.takeWhile (fun ch => decide (ch ≠ c)) := by
  induction s with
  | nil => rfl
  | cons x xs ih =>
    simp only [splitOnChar]
    by_cases h : x = c
    · simp [h, List.takeWhile_cons]
    · cases hs : splitOnChar c xs with
      | nil => exact absurd hs (splitOnChar_ne_nil c xs)
      | cons a b =>
        rw [hs] at ih
        simp only [List.getD_cons_zero] at ih
        simp [h, List.takeWhile_cons, ih, hs]

theorem splitOnChar_append (c : Char) (pre rest : Str) (hpre : c ∉ pre) :
    splitOnChar c (pre ++ c :: rest) = pre :: splitOnChar c rest := by
  induction pre with
  | nil => simp [splitOnChar]
  | cons x xs ih =>
    have hx : x ≠ c := by intro h; exact hpre (by simp [h])
    have hxs : c ∉ xs := fun h => hpre (by simp [h])
    simp only [List.cons_append, splitOnChar, hx, if_false]
    rw [List.append_eq, ih hxs]

theorem monthSort_of_perm (l : List Str)
    (h : l.Perm ["January2025".toList, "December2025".toList, "March2026".toList]) :
    jsSortB monthLe l
      = ["January2025".toList, "December2025".toList, "March2026".toList] := by
  have hlen : l.length = 3 := by simpa using h.length_eq
  have hnd : l.Nodup := (h.nodup_iff).mpr (by decide)
  match l, hlen, hnd, h with
  | [x, y, z], _, hnd, h =>
    have hx : x ∈ ["January2025".toList, "December2025".toList, "March2026".toList] :=
      h.mem_iff.mp (by simp)
    have hy : y ∈ ["January2025".toList, "December2025".toList, "March2026".toList] :=
      h.mem_iff.mp (by simp)
    have hz : z ∈ ["January2025".toList, "December2025".toList, "March2026".toList] :=
      h.mem_iff.mp (by simp)
    simp only [List.mem_cons, List.not_mem_nil, or_false] at hx hy hz
    simp only [List.nodup_cons, List.mem_cons, List.not_mem_nil, or_false, not_or,
      List.nodup_nil, and_true] at hnd
    rcases hx with rfl | rfl | rfl <;> rcases hy with rfl | rfl | rfl <;>
      rcases hz with rfl | rfl | rfl <;> first | decide | simp_all

theorem matchesMonthB_all (p : TournamentRecord) : matchesMonthB allStr p = true := by
  simp [matchesMonthB]

theorem matchesCountryB_all (p : TournamentRecord) : matchesCountryB allStr p = true := by
  simp [matchesCountryB]

theorem matchesTypeB_all (p : TournamentRecord) : matchesTypeB allStr p = true := by
  simp [matchesTypeB]

theorem filterPred_month_split (search M countryF typeF statusF : Str) (now : Int)
    (f : RawFile) :
    filterPred search M countryF typeF statusF now f
      = (matchesMonthB M (parseFilename f.name)
          && filterPred search allStr countryF typeF statusF now f) := by
  simp only [filterPred, matchesMonthB_all]
  cases matchesSearchB search f <;>
    cases matchesMonthB M (parseFilename f.name) <;>
      cases matchesCountryB countryF (parseFilename f.name) <;>
        cases matchesTypeB typeF (parseFilename f.name) <;>
          cases matchesStatusB statusF (parseFilename f.name) now <;> rfl

theorem filterPred_country_split (search monthF C typeF statusF : Str) (now : Int)
    (f : RawFile) :
    filterPred search monthF C typeF statusF now f
      = (matchesCountryB C (parseFilename f.name)
          && filterPred search monthF allStr typeF statusF now f) := by
  simp only [filterPred, matchesCountryB_all]
  cases matchesSearchB search f <;>
    cases matchesMonthB monthF (parseFilename f.name) <;>
      cases matchesCountryB C (parseFilename f.name) <;>
        cases matchesTypeB typeF (parseFilename f.name) <;>
          cases matchesStatusB statusF (parseFilename f.name) now <;> rfl

theorem filterPred_type_split (search monthF countryF T statusF : Str) (now : Int)
    (f : RawFile) :
    filterPred search monthF countryF T statusF now f
      = (matchesTypeB T (parseFilename f.name)
          && filterPred search monthF countryF allStr statusF now f) := by
  simp only [filterPred, matchesTypeB_all]
  cases matchesSearchB search f <;>
    cases matchesMonthB monthF (parseFilename f.name) <;>
      cases matchesCountryB countryF (parseFilename f.name) <;>
        cases matchesTypeB T (parseFilename f.name) <;>
          cases matchesStatusB statusF (parseFilename f.name) now <;> rfl

theorem jsSortB_filter_sublist (mt pAll : RawFile → Bool) (files : List RawFile)
    (h : ∀ f ∈ files, fileOk f) :
    (jsSortB sortCompareLe (List.filter (fun f => mt f && pAll f) files)).Sublist
      (jsSortB sortCompareLe (List.filter pAll files)) := by
  rw [← List.filter_filter]
  rw [jsSortB_filter sortCompareLe fileOk sortCompareLe_trans sortCompareLe_total mt
    (List.filter pAll files) (fun f hf => h f (List.mem_filter.mp hf).1)]
  exact List.filter_sublist _

/-! ## Claim theorems -/

/-- C1: for every string (the empty string and whitespace-free strings
included), `parseFilename` is a total Lean function (so it terminates
without error) and its `country` field is non-empty: either the literal
`"Unknown"` or the parsed country token (the trimmed second comma
segment of the tail). -/
theorem claim1_country_never_empty (s : Str) :
    (parseFilename s).country ≠ [] ∧
      ((parseFilename s).country = unknownStr ∨
        (parseFilename s).country = (commaSegsOf s).getD 1 []) := by
  have hc : (parseFilename s).country
      = (if ((commaSegsOf s).getD 1 []).isEmpty then unknownStr
         else (commaSegsOf s).getD 1 []) := rfl
  rw [hc]
  split
  · exact ⟨by decide, Or.inl rfl⟩
  · next h => exact ⟨fun hnil => h (by rw [hnil]; rfl), Or.inr rfl⟩

/-- C2 (counterexample): for the single file named `"X"` (one token, so
its `monthYear` is empty) with every filter inactive, the sum of the
month facet counts is 0, yet 1 record matches every other active
filter — the claim's equality fails because `getFilteredCounts` skips
records whose facet value is the empty string. -/
theorem claim2_counterexample :
    mapSum (getFilteredCounts [⟨"a".toList, "X".toList, []⟩] FacetAttr.monthYear
        allStr allStr allStr [] "All".toList 0) = 0 ∧
      (List.filter (fun f => matchesSearchB [] f &&
            matchesOtherFilters FacetAttr.monthYear allStr allStr allStr
              (parseFilename f.name) &&
            matchesStatusB "All".toList (parseFilename f.name) 0)
          [⟨"a".toList, "X".toList, []⟩]).length = 1 := by decide

/-- C2 (amended): for every filter state and facet, the sum of the
facet's option counts (the values of the `getFilteredCounts` map)
equals the number of records that match every other active filter AND
have a non-empty value for that facet attribute. -/
theorem claim2_facet_sum (files : List RawFile) (attr : FacetAttr)
    (currentMonth currentCountry currentType currentSearch currentStatus : Str)
    (now : Int) :
    mapSum (getFilteredCounts files attr currentMonth currentCountry currentType
        currentSearch currentStatus now)
      = (files.filter (countsKeep attr currentMonth currentCountry currentType
          currentSearch currentStatus now)).length := by
  have h := getFilteredCounts_sum_aux attr currentMonth currentCountry currentType
    currentSearch currentStatus now files []
  simpa [getFilteredCounts, mapSum] using h

/-- C3 (counterexample): with two commas in the tail, the code takes
only the segment between the first and second commas ("France"), not
everything after the first comma ("France, Europe") as the claim
states. -/
theorem claim3_counterexample :
    (parseFilename "14-15 June2025 Classical Paris, France, Europe.pdf".toList).country
        = "France".toList ∧
      "France".toList ≠ "France, Europe".toList := by decide

/-- C3 (amended): when the combined tail contains a comma, `location`
is the trimmed text before the first comma, and `country` is the
trimmed text between the first comma and any second comma when that
text is non-empty, else the literal `"Unknown"`. -/
theorem claim3_first_comma_split (name pre rest : Str)
    (hdecomp : locationCountryOf name = pre ++ ',' :: rest) (hpre : ',' ∉ pre) :
    (parseFilename name).location = jsTrim pre ∧
      (parseFilename name).country
        = (if (jsTrim (rest.takeWhile (fun ch => decide (ch ≠ ',')))).isEmpty then unknownStr
           else jsTrim (rest.takeWhile (fun ch => decide (ch ≠ ',')))) := by
  have hsegs : commaSegsOf name = jsTrim pre :: (splitOnChar ',' rest).map jsTrim := by
    unfold commaSegsOf
    rw [hdecomp, splitOnChar_append ',' pre rest hpre]
    simp
  have hloc : (parseFilename name).location = (commaSegsOf name).getD 0 [] := rfl
  have hcty : (parseFilename name).country
      = (if ((commaSegsOf name).getD 1 []).isEmpty then unknownStr
         else (commaSegsOf name).getD 1 []) := rfl
  constructor
  · rw [hloc, hsegs]; rfl
  · rw [hcty, hsegs]
    have h2 : ((splitOnChar ',' rest).map jsTrim).getD 0 []
        = jsTrim (rest.takeWhile (fun ch => decide (ch ≠ ','))) := by
      cases hs : splitOnChar ',' rest with
      | nil => exact absurd hs (splitOnChar_ne_nil ',' rest)
      | cons a b =>
        have hh := splitOnChar_head ',' rest
        rw [hs] at hh
        simp only [List.getD_cons_zero] at hh
        simp [hh]
    simp only [List.getD_cons_succ]
    rw [h2]

/-- C3 (witness): the amended claim instantiated at the canonical
filename, whose tail decomposes at its unique comma. -/
theorem claim3_witness :
    (locationCountryOf "14-15 June2025 Classical Paris, France.pdf".toList
        = "Paris".toList ++ ',' :: " France".toList ∧
      ',' ∉ "Paris".toList) ∧
      ((parseFilename "14-15 June2025 Classical Paris, France.pdf".toList).location
          = jsTrim "Paris".toList ∧
        (parseFilename "14-15 June2025 Classical Paris, France.pdf".toList).country
          = (if (jsTrim (" France".toList.takeWhile (fun ch => decide (ch ≠ ',')))).isEmpty
             then unknownStr
             else jsTrim (" France".toList.takeWhile (fun ch => decide (ch ≠ ','))))) :=
  ⟨⟨by decide, by decide⟩,
    claim3_first_comma_split "14-15 June2025 Classical Paris, France.pdf".toList
      "Paris".toList " France".toList (by decide) (by decide)⟩

/-- C4: the code slip behind the claim — a filename whose month token
is not a month name still yields a non-null `startDate`: the Invalid
Date object, because `new Date` never throws, so the `catch` that was
meant to null it is dead code. -/
theorem claim4_invalid_date_not_null :
    (parseFilename "12 Foo2025 Classical Paris, France.pdf".toList).startDate
        = some JSDate.invalid ∧
      (parseFilename "12 Foo2025 Classical Paris, France.pdf".toList).startDate ≠ none := by
  decide

/-- C5 (counterexample): a record parsed from a filename with an
unrecognisable month has a non-null `startDate` (the Invalid Date) yet
satisfies neither the Upcoming nor the Completed predicate, refuting
"non-null implies exactly one". -/
theorem claim5_counterexample :
    (parseFilename "2 Foo2025 T A, B.pdf".toList).startDate ≠ none ∧
      isUpcomingB (parseFilename "2 Foo2025 T A, B.pdf".toList) 0 = false ∧
      isCompletedB (parseFilename "2 Foo2025 T A, B.pdf".toList) 0 = false := by decide

/-- C5 (amended): relative to any fixed `now`, a record whose
`startDate` is a valid (non-Invalid) date satisfies exactly one of the
Upcoming and Completed predicates; a record whose `startDate` is null
or the Invalid Date satisfies neither. -/
theorem claim5_status_partition (r : TournamentRecord) (now : Int) :
    ((∃ t, r.startDate = some (JSDate.valid t)) →
      (isUpcomingB r now = true ∧ isCompletedB r now = false) ∨
        (isUpcomingB r now = false ∧ isCompletedB r now = true)) ∧
      ((r.startDate = none ∨ r.startDate = some JSDate.invalid) →
        isUpcomingB r now = false ∧ isCompletedB r now = false) := by
  constructor
  · rintro ⟨t, ht⟩
    simp only [isUpcomingB, isCompletedB, ht]
    rcases le_or_lt now t with h | h
    · left
      constructor
      · simp [h]
      · simp; omega
    · right
      constructor
      · simp; omega
      · simp [h]
  · rintro (h | h) <;> simp [isUpcomingB, isCompletedB, h]

/-- C5 (witness): the partition instantiated at a record with a valid
date and at a record with a null date. -/
theorem claim5_witness :
    ((isUpcomingB (parseFilename "2 June2025 T A, B.pdf".toList) 0 = true ∧
        isCompletedB (parseFilename "2 June2025 T A, B.pdf".toList) 0 = false) ∨
      (isUpcomingB (parseFilename "2 June2025 T A, B.pdf".toList) 0 = false ∧
        isCompletedB (parseFilename "2 June2025 T A, B.pdf".toList) 0 = true)) ∧
      (isUpcomingB (parseFilename "x T".toList) 5 = false ∧
        isCompletedB (parseFilename "x T".toList) 5 = false) :=
  ⟨(claim5_status_partition (parseFilename "2 June2025 T A, B.pdf".toList) 0).1
      ⟨753456, by decide⟩,
    (claim5_status_partition (parseFilename "x T".toList) 5).2 (Or.inl (by decide))⟩

/-- C7: `parseFilename` on the spec's canonical example returns
exactly the claimed five fields. -/
theorem claim7_example_parse :
    (parseFilename "14-15 June2025 Classical Paris, France.pdf".toList).dateRange
        = "14-15".toList ∧
      (parseFilename "14-15 June2025 Classical Paris, France.pdf".toList).monthYear
        = "June2025".toList ∧
      (parseFilename "14-15 June2025 Classical Paris, France.pdf".toList).type
        = "Classical".toList ∧
      (parseFilename "14-15 June2025 Classical Paris, France.pdf".toList).location
        = "Paris".toList ∧
      (parseFilename "14-15 June2025 Classical Paris, France.pdf".toList).country
        = "France".toList := by decide

/-- C6 (counterexample): with an Invalid-Date record in the displayed
list (status filter "All"), the comparator is inconsistent (NaN is
treated as a tie with everything) and the displayed list is NOT sorted
ascending by `startDate`: the June 2 record precedes the June 1
record. -/
theorem claim6_counterexample :
    filteredFiles
        [⟨"a".toList, "2 June2025 T A, B.pdf".toList, []⟩,
          ⟨"b".toList, "2 Foo2025 T A, B.pdf".toList, []⟩,
          ⟨"c".toList, "1 June2025 T A, B.pdf".toList, []⟩]
        [] allStr allStr allStr "All".toList 0
      = [⟨"a".toList, "2 June2025 T A, B.pdf".toList, []⟩,
          ⟨"b".toList, "2 Foo2025 T A, B.pdf".toList, []⟩,
          ⟨"c".toList, "1 June2025 T A, B.pdf".toList, []⟩] ∧
      (parseFilename "2 June2025 T A, B.pdf".toList).startDate
        = some (JSDate.valid 753456) ∧
      (parseFilename "1 June2025 T A, B.pdf".toList).startDate
        = some (JSDate.valid 753455) ∧
      (753455 : Int) < 753456 := by decide

/-- C6 (amended): provided no displayed record's parsed `startDate` is
the Invalid Date (each displayed record's is null or a valid date), the
displayed list is sorted by the comparator's order — valid dates
ascending, null dates after every valid date — and the null-date
records keep their original relative order (they appear exactly as in
the filtered input). -/
theorem claim6_sorted_displayed (files : List RawFile)
    (search monthF countryF typeF statusF : Str) (now : Int)
    (h : ∀ f ∈ filteredFiles files search monthF countryF typeF statusF now, fileOk f) :
    List.Pairwise (fun a b => sortCompareLe a b = true)
        (filteredFiles files search monthF countryF typeF statusF now) ∧
      List.filter nullStartB (filteredFiles files search monthF countryF typeF statusF now)
        = List.filter nullStartB
            (files.filter (filterPred search monthF countryF typeF statusF now)) := by
  have hsub : ∀ f ∈ files.filter (filterPred search monthF countryF typeF statusF now),
      fileOk f := fun f hf =>
    h f ((mem_jsSortB sortCompareLe
      (files.filter (filterPred search monthF countryF typeF statusF now)) f).mpr hf)
  constructor
  · exact jsSortB_pairwise sortCompareLe fileOk sortCompareLe_trans sortCompareLe_total _ hsub
  · unfold filteredFiles
    rw [← jsSortB_filter sortCompareLe fileOk sortCompareLe_trans sortCompareLe_total
      nullStartB _ hsub]
    exact jsSortB_eq_self _ _ (fun a ha b hb =>
      sortCompareLe_of_null a b (List.mem_filter.mp ha).2 (List.mem_filter.mp hb).2)

/-- C6 (witness): the amended sort property instantiated at three
files whose displayed records are all well-formed (two valid dates
given out of order and one null-date file). -/
theorem claim6_witness :
    List.Pairwise (fun a b => sortCompareLe a b = true)
        (filteredFiles
          [⟨"a".toList, "2 June2025 T A, B.pdf".toList, []⟩,
            ⟨"b".toList, "1 June2025 T A, B.pdf".toList, []⟩,
            ⟨"c".toList, "x T".toList, []⟩]
          [] allStr allStr allStr "All".toList 0) ∧
      List.filter nullStartB
          (filteredFiles
            [⟨"a".toList, "2 June2025 T A, B.pdf".toList, []⟩,
              ⟨"b".toList, "1 June2025 T A, B.pdf".toList, []⟩,
              ⟨"c".toList, "x T".toList, []⟩]
            [] allStr allStr allStr "All".toList 0)
        = List.filter nullStartB
            (List.filter (filterPred [] allStr allStr allStr "All".toList 0)
              [⟨"a".toList, "2 June2025 T A, B.pdf".toList, []⟩,
                ⟨"b".toList, "1 June2025 T A, B.pdf".toList, []⟩,
                ⟨"c".toList, "x T".toList, []⟩]) :=
  claim6_sorted_displayed
    [⟨"a".toList, "2 June2025 T A, B.pdf".toList, []⟩,
      ⟨"b".toList, "1 June2025 T A, B.pdf".toList, []⟩,
      ⟨"c".toList, "x T".toList, []⟩]
    [] allStr allStr allStr "All".toList 0 (by decide)

/-- C8: whenever the month facet keys under the other active filters
are exactly March2026, January2025 and December2025 (in any order), the
month dropdown lists `All` first and then January2025, December2025,
March2026 — year ascending, then calendar month, not lexicographic. -/
theorem claim8_month_order (files : List RawFile)
    (search countryF typeF statusF : Str) (now : Int)
    (h : ((getFilteredCounts files FacetAttr.monthYear allStr countryF typeF search
          statusF now).map Prod.fst).Perm
        ["January2025".toList, "December2025".toList, "March2026".toList]) :
    (monthOptions files search countryF typeF statusF now).map FacetOption.value
      = [allStr, "January2025".toList, "December2025".toList, "March2026".toList] := by
  simp only [monthOptions]
  rw [monthSort_of_perm _ h]
  rfl

/-- C8 (witness): the ordering property instantiated at three files
supplied in the scrambled order March2026, January2025, December2025. -/
theorem claim8_witness :
    ((getFilteredCounts
          [⟨"a".toList, "1 March2026 T".toList, []⟩,
            ⟨"b".toList, "1 January2025 T".toList, []⟩,
            ⟨"c".toList, "1 December2025 T".toList, []⟩]
          FacetAttr.monthYear allStr allStr allStr [] "All".toList 0).map Prod.fst).Perm
        ["January2025".toList, "December2025".toList, "March2026".toList] ∧
      (monthOptions
          [⟨"a".toList, "1 March2026 T".toList, []⟩,
            ⟨"b".toList, "1 January2025 T".toList, []⟩,
            ⟨"c".toList, "1 December2025 T".toList, []⟩]
          [] allStr allStr "All".toList 0).map FacetOption.value
        = [allStr, "January2025".toList, "December2025".toList, "March2026".toList] :=
  ⟨by decide,
    claim8_month_order
      [⟨"a".toList, "1 March2026 T".toList, []⟩,
        ⟨"b".toList, "1 January2025 T".toList, []⟩,
        ⟨"c".toList, "1 December2025 T".toList, []⟩]
      [] allStr allStr "All".toList 0 (by decide)⟩

/-- C9: on the empty record list, for every filter state, the
filter/facet engine does not fail: the displayed list is empty and each
facet option list is exactly the `All` sentinel entry. -/
theorem claim9_empty_list (search monthF countryF typeF statusF : Str) (now : Int) :
    filteredFiles [] search monthF countryF typeF statusF now = [] ∧
      monthOptions [] search countryF typeF statusF now
        = [{ value := allStr, label := allStr }] ∧
      countryOptions [] search monthF typeF statusF now
        = [{ value := allStr, label := allStr }] ∧
      typeOptions [] search monthF countryF statusF now
        = [{ value := allStr, label := allStr }] :=
  ⟨rfl, rfl, rfl, rfl⟩

/-- C10 (counterexample): with an Invalid-Date record present (status
"All"), narrowing the month facet from `All` to "June2025" produces a
displayed list that is NOT a subsequence of the all-months displayed
list: the narrowed sort swaps the two valid-date records. -/
theorem claim10_counterexample :
    ¬ (filteredFiles
          [⟨"a".toList, "2 June2025 T A, B.pdf".toList, []⟩,
            ⟨"b".toList, "2 Foo2025 T A, B.pdf".toList, []⟩,
            ⟨"c".toList, "1 June2025 T A, B.pdf".toList, []⟩]
          [] "June2025".toList allStr allStr "All".toList 0).Sublist
        (filteredFiles
          [⟨"a".toList, "2 June2025 T A, B.pdf".toList, []⟩,
            ⟨"b".toList, "2 Foo2025 T A, B.pdf".toList, []⟩,
            ⟨"c".toList, "1 June2025 T A, B.pdf".toList, []⟩]
          [] allStr allStr allStr "All".toList 0) := by
  intro hsub
  rw [← List.mem_sublists] at hsub
  exact absurd hsub (by decide)

/-- C10 (amended): provided no record's parsed `startDate` is the
Invalid Date, narrowing any one facet (month, country or type) from
`All` to a concrete value yields a displayed list that is a
subsequence of the `All` displayed list, all other filters equal. -/
theorem claim10_narrowing_sublist (files : List RawFile)
    (search monthF countryF typeF statusF M C T : Str) (now : Int)
    (h : ∀ f ∈ files, fileOk f) :
    (filteredFiles files search M countryF typeF statusF now).Sublist
        (filteredFiles files search allStr countryF typeF statusF now) ∧
      (filteredFiles files search monthF C typeF statusF now).Sublist
        (filteredFiles files search monthF allStr typeF statusF now) ∧
      (filteredFiles files search monthF countryF T statusF now).Sublist
        (filteredFiles files search monthF countryF allStr statusF now) := by
  refine ⟨?_, ?_, ?_⟩
  · unfold filteredFiles
    rw [List.filter_congr
      (fun f _ => filterPred_month_split search M countryF typeF statusF now f)]
    exact jsSortB_filter_sublist _ _ files h
  · unfold filteredFiles
    rw [List.filter_congr
      (fun f _ => filterPred_country_split search monthF C typeF statusF now f)]
    exact jsSortB_filter_sublist _ _ files h
  · unfold filteredFiles
    rw [List.filter_congr
      (fun f _ => filterPred_type_split search monthF countryF T statusF now f)]
    exact jsSortB_filter_sublist _ _ files h

/-- C10 (witness): the amended monotonicity instantiated at two
well-formed files and the concrete narrowings month "June2025",
country "B", type "T". -/
theorem claim10_witness :
    (filteredFiles
          [⟨"a".toList, "2 June2025 T A, B.pdf".toList, []⟩,
            ⟨"b".toList, "1 July2025 U C, D.pdf".toList, []⟩]
          [] "June2025".toList allStr allStr "All".toList 0).Sublist
        (filteredFiles
          [⟨"a".toList, "2 June2025 T A, B.pdf".toList, []⟩,
            ⟨"b".toList, "1 July2025 U C, D.pdf".toList, []⟩]
          [] allStr allStr allStr "All".toList 0) ∧
      (filteredFiles
          [⟨"a".toList, "2 June2025 T A, B.pdf".toList, []⟩,
            ⟨"b".toList, "1 July2025 U C, D.pdf".toList, []⟩]
          [] allStr "B".toList allStr "All".toList 0).Sublist
        (filteredFiles
          [⟨"a".toList, "2 June2025 T A, B.pdf".toList, []⟩,
            ⟨"b".toList, "1 July2025 U C, D.pdf".toList, []⟩]
          [] allStr allStr allStr "All".toList 0) ∧
      (filteredFiles
          [⟨"a".toList, "2 June2025 T A, B.pdf".toList, []⟩,
            ⟨"b".toList, "1 July2025 U C, D.pdf".toList, []⟩]
          [] allStr allStr "T".toList "All".toList 0).Sublist
        (filteredFiles
          [⟨"a".toList, "2 June2025 T A, B.pdf".toList, []⟩,
            ⟨"b".toList, "1 July2025 U C, D.pdf".toList, []⟩]
          [] allStr allStr allStr "All".toList 0) :=
  claim10_narrowing_sublist
    [⟨"a".toList, "2 June2025 T A, B.pdf".toList, []⟩,
      ⟨"b".toList, "1 July2025 U C, D.pdf".toList, []⟩]
    [] allStr allStr allStr "All".toList "June2025".toList "B".toList "T".toList 0
    (by decide)
